import Mathlib

/-!
Verification of the libosmocore fragment consisting of `signal.c`
(the in-process signal/notification bus) and `src/exec.c` (the hardened
subprocess-launch utility).

Shallow embedding conventions:
* C pointers that are only compared for identity (callback function
  pointers, `void *data`, string pointers) are modelled as `Nat` tags.
* A C string in the environment is a `CStr`: a pointer tag plus the
  pointed-to character content.  Copying a `char *` into the output array
  copies the whole `CStr` value, so pointer preservation is the equality
  of the `ptr` field (and in fact of the whole value).
* A `char **` array that the code fills is modelled by the list of slots
  actually written (entries as `some e`, the NULL sentinel as `none`);
  the C `int` return value is modelled explicitly alongside.
* `NULL` arguments are modelled by `Option` (or a `Bool` flag when only
  the nullness of an out-pointer matters).
* `OSMO_ASSERT` failure (process abort) is modelled as `Option.none`
  around the result where the assertion is reachable.
-/

set_option autoImplicit false

namespace Libosmocore

/-! ## Signal bus (`signal.c`) -/

/-- One registry entry, mirroring `struct signal_handler`: the subsystem
number, the callback function pointer `cbfn` and the opaque `data`
pointer (both pointers modelled as `Nat` tags). -/
structure SignalHandler where
  subsys : Nat
  cbfn : Nat
  data : Nat
deriving DecidableEq, Repr

/-- The global `signal_handler_list`, in list order (head = first
registered). -/
abbrev Registry := List SignalHandler

/-- `osmo_signal_register_handler`: allocates a new entry with the given
triple and `llist_add_tail`s it onto `signal_handler_list` (appends at the
tail).  The talloc out-of-memory paths are not modelled; on the success
path the registry grows by exactly this one tail entry. -/
def osmo_signal_register_handler (subsys cbfn data : Nat) (reg : Registry) : Registry :=
  reg ++ [⟨subsys, cbfn, data⟩]

/-- The match condition of `osmo_signal_unregister_handler`:
`handler->cbfn == cbfn && handler->data == data && subsys == handler->subsys`. -/
def handlerMatches (subsys cbfn data : Nat) (h : SignalHandler) : Bool :=
  h.cbfn == cbfn && h.data == data && subsys == h.subsys

/-- `osmo_signal_unregister_handler`: walks `signal_handler_list` in
order; on the first entry whose `(subsys, cbfn, data)` triple matches it
`llist_del`s that entry and `break`s; otherwise the list is unchanged. -/
def osmo_signal_unregister_handler (subsys cbfn data : Nat) : Registry → Registry
  | [] => []
  | h :: rest =>
    if handlerMatches subsys cbfn data h then rest
    else h :: osmo_signal_unregister_handler subsys cbfn data rest

/-- One synchronous callback invocation made by
`osmo_signal_dispatch`: the argument tuple
`(subsystem, signal, handler->data, signal_data)` passed to `cbfn`,
together with the invoked callback pointer. -/
structure Invocation where
  cbfn : Nat
  subsys : Nat
  signal : Nat
  data : Nat
  signal_data : Nat
deriving DecidableEq, Repr

/-- `osmo_signal_dispatch`: iterates the registry in list (insertion)
order; entries whose `subsys` differs are skipped (`continue`), every
other entry's callback is invoked once with
`(subsys, signal, handler->data, signal_data)`.  The result is the list
of invocations in the order they are made. -/
def osmo_signal_dispatch (subsys signal signal_data : Nat) : Registry → List Invocation
  | [] => []
  | h :: rest =>
    if h.subsys ≠ subsys then osmo_signal_dispatch subsys signal signal_data rest
    else ⟨h.cbfn, subsys, signal, h.data, signal_data⟩
      :: osmo_signal_dispatch subsys signal signal_data rest

/-! ## Environment handling (`src/exec.c`) -/

/-- A C string in an environment array: the pointer value (a `Nat` tag)
and the character content it points to.  `osmo_environment_filter` and
`osmo_environment_append` copy such pointers wholesale ("only copying
pointers, not actual strings"), which the embedding models by copying the
whole `CStr` value, `ptr` tag included. -/
structure CStr where
  ptr : Nat
  content : String
deriving DecidableEq, Repr

/-- `str_in_list`: walks the NULL-terminated `whitelist` and returns true
iff some entry `strcmp`s equal to `key`. -/
def str_in_list : List String → String → Bool
  | [], _ => false
  | e :: rest, key => if e = key then true else str_in_list rest key

/-- The per-entry key extraction of the `osmo_environment_filter` loop:
`strchr(*ent, '=')` yields the position of the first `=` (`none` when the
entry has no `=`, in which case the entry is skipped); a key of length
`eq_pos >= ARRAY_SIZE(tmp) = 256` is also skipped; otherwise the key is
the first `eq_pos` characters of the entry. -/
def entryKey (e : CStr) : Option String :=
  match e.content.toList.findIdx? (fun c => c == '=') with
  | none => none
  | some eq_pos =>
    if 256 ≤ eq_pos then none
    else some (String.mk (e.content.toList.take eq_pos))

/-- An input entry survives the filter iff it has a parseable key
(`=` present, key shorter than 256) and that key is in the whitelist. -/
def entryMatches (whitelist : List String) (e : CStr) : Bool :=
  match entryKey e with
  | none => false
  | some key => str_in_list whitelist key

/-- The main loop of `osmo_environment_filter` over the remaining input
entries, carrying `out_used`: entries without a parseable whitelisted key
are skipped (`continue`); when a matching entry is found with
`out_used == out_len - 1` the loop `break`s (reserving the last slot for
the sentinel); otherwise the entry pointer is appended.  Returns the
entries written by the loop, in order. -/
def filterLoop (whitelist : List String) (out_len : Nat) :
    List CStr → Nat → List CStr
  | [], _ => []
  | e :: rest, out_used =>
    match entryKey e with
    | none => filterLoop whitelist out_len rest out_used
    | some key =>
      if str_in_list whitelist key then
        if out_used = out_len - 1 then []
        else e :: filterLoop whitelist out_len rest (out_used + 1)
      else filterLoop whitelist out_len rest out_used

/-- `osmo_environment_filter out out_len in whitelist`.  `out_null`
models `out == NULL`; a `none` input environment or whitelist models the
corresponding NULL pointer.  The result is `Except`: `.error (-22)`
(`-EINVAL`) on the invalid-argument paths (out untouched), otherwise
`.ok (slots, ret)` where `slots` lists the array slots written from index
0 (entries as `some`, the final NULL sentinel as `none`) and `ret` is the
returned `out_used` count — one per slot written, so it always equals
`slots.length` here.  The trailing `OSMO_ASSERT(out_used < out_len)`
cannot fire on these paths (see `filterLoop_le`). -/
def osmo_environment_filter (out_null : Bool) (out_len : Nat)
    (in_env : Option (List CStr)) (whitelist : Option (List String)) :
    Except Int (List (Option CStr) × Int) :=
  match whitelist with
  | none => .error (-22)
  | some wl =>
    if out_null || out_len == 0 then .error (-22)
    else
      match in_env with
      | none => .ok ([none], 1)
      | some in_list =>
        let written := filterLoop wl out_len in_list 0
        .ok (written.map some ++ [none], (written.length : Int) + 1)

/-- `osmo_environment_append out out_len in`.  The caller's `out` array
is assumed already sentinel-terminated with `existing` the entries before
its first NULL (the code seeks `out_used` to that NULL).  The outer
`Option` is `none` exactly when `OSMO_ASSERT(out_used < out_len)` fires
(aborting the process); otherwise the `Except` carries `.error (-22)` for
invalid arguments, or `.ok (slots, ret)` with `slots` the logical content
of the array up to and including its terminating sentinel and `ret` the
returned count.  With a NULL `in` and a non-empty `existing`, nothing is
written and the returned count is `existing.length` (the sentinel slot,
although present, is not counted); in every other success case the count
includes the sentinel slot. -/
def osmo_environment_append (out_null : Bool) (out_len : Nat)
    (existing : List CStr) (in_env : Option (List CStr)) :
    Option (Except Int (List (Option CStr) × Int)) :=
  if out_null || out_len == 0 then some (.error (-22))
  else
    let out_used := existing.length
    match in_env with
    | none =>
      if out_used = 0 then some (.ok ([none], 1))
      else some (.ok (existing.map some ++ [none], (out_used : Int)))
    | some in_list =>
      let appended := in_list.take (out_len - 1 - out_used)
      let out_used2 := out_used + appended.length
      if out_used2 < out_len then
        some (.ok (existing.map some ++ appended.map some ++ [none],
          (out_used2 : Int) + 1))
      else none

/-- The filter loop writes exactly the matching input entries, in input
order, truncated to the `out_len - 1` slots available before the
sentinel. -/
theorem filterLoop_eq_take (wl : List String) (out_len : Nat) (h1 : 1 ≤ out_len) :
    ∀ (l : List CStr) (used : Nat), used ≤ out_len - 1 →
      filterLoop wl out_len l used =
        (l.filter (entryMatches wl)).take (out_len - 1 - used) := by
  intro l
  induction l with
  | nil => intro used _; simp [filterLoop]
  | cons e rest ih =>
    intro used hused
    simp only [filterLoop]
    cases hk : entryKey e with
    | none =>
      have hm : entryMatches wl e = false := by simp [entryMatches, hk]
      simp [List.filter_cons, hm, ih used hused]
    | some key =>
      by_cases hw : str_in_list wl key = true
      · have hm : entryMatches wl e = true := by simp [entryMatches, hk, hw]
        by_cases hb : used = out_len - 1
        · simp [hw, hb, List.filter_cons, hm]
        · have harith : out_len - 1 - used = (out_len - 1 - (used + 1)) + 1 := by omega
          simp [hw, hb, List.filter_cons, hm, ih (used + 1) (by omega), harith]
      · have hwf : str_in_list wl key = false := by
          cases hval : str_in_list wl key
          · rfl
          · exact absurd hval hw
        have hm : entryMatches wl e = false := by simp [entryMatches, hk, hwf]
        simp [hwf, List.filter_cons, hm, ih used hused]

/-! ### Claims C2 and C3 -/

/-- C2: with output capacity `N >= 1` and more than `N - 1` matching
entries in the input (matching = has a `=`, key shorter than 256, key in
the whitelist), `osmo_environment_filter` writes exactly the first
`N - 1` matching entries followed by the NULL sentinel, returns count
`N`, reports no error, and the written slots number exactly `N` (so no
index at or beyond `N` is written). -/
theorem env_filter_truncation (N : Nat) (in_list : List CStr) (wl : List String)
    (hN : 1 ≤ N) (hmany : N - 1 < (in_list.filter (entryMatches wl)).length) :
    osmo_environment_filter false N (some in_list) (some wl) =
      .ok ((((in_list.filter (entryMatches wl)).take (N - 1)).map some ++ [none]),
        (N : Int))
    ∧ ((((in_list.filter (entryMatches wl)).take (N - 1)).map some
        ++ [none]).length = N) := by
  have hloop := filterLoop_eq_take wl N hN in_list 0 (by omega)
  have hlen : ((in_list.filter (entryMatches wl)).take (N - 1)).length = N - 1 := by
    rw [List.length_take]
    omega
  have hb : (false || (N == 0)) = false := by
    simp only [Bool.false_or, beq_eq_false_iff_ne, ne_eq]
    omega
  constructor
  · have hcast : ((((in_list.filter (entryMatches wl)).take (N - 1)).length : Int) + 1)
        = (N : Int) := by
      rw [hlen]
      omega
    simp only [osmo_environment_filter, hb, Bool.false_eq_true, if_false, hloop,
      Nat.sub_zero, hcast]
  · simp only [List.length_append, List.length_map, List.length_cons,
      List.length_nil, hlen]
    omega

/-- Witness for C2 at capacity 2 with two matching entries: only the
first is written, followed by the sentinel, and the returned count is
2. -/
theorem env_filter_truncation_witness :
    osmo_environment_filter false 2
        (some [⟨0, "PATH=/bin"⟩, ⟨1, "HOME=/root"⟩]) (some ["PATH", "HOME"]) =
      .ok ([some ⟨0, "PATH=/bin"⟩, none], 2) := by
  obtain ⟨hmain, _⟩ := env_filter_truncation 2 [⟨0, "PATH=/bin"⟩, ⟨1, "HOME=/root"⟩]
    ["PATH", "HOME"] (by decide) (by decide)
  rw [hmain]
  rfl

/-- C3: `osmo_environment_filter` returns the invalid-argument error
`-EINVAL` exactly when the output buffer is NULL, the output capacity is
zero, or the whitelist is NULL; a NULL input environment is not an error
and yields a single written slot holding the sentinel with returned count
1, whatever the whitelist holds. -/
theorem env_filter_error_iff :
    (∀ (out_null : Bool) (out_len : Nat) (in_env : Option (List CStr))
        (wl : Option (List String)),
      (∃ e, osmo_environment_filter out_null out_len in_env wl = .error e) ↔
        (out_null = true ∨ out_len = 0 ∨ wl = none))
    ∧ (∀ (out_len : Nat) (wl : List String), out_len ≠ 0 →
        osmo_environment_filter false out_len none (some wl) = .ok ([none], 1)) := by
  constructor
  · intro out_null out_len in_env wl
    constructor
    · rintro ⟨e, he⟩
      by_contra hcon
      push_neg at hcon
      obtain ⟨h1, h2, h3⟩ := hcon
      cases wl with
      | none => exact h3 rfl
      | some w =>
        have hb : (out_null || (out_len == 0)) = false := by
          cases out_null
          · simp only [Bool.false_or, beq_eq_false_iff_ne, ne_eq]
            exact h2
          · exact absurd rfl h1
        cases in_env <;>
          simp [osmo_environment_filter, hb] at he
    · intro hcond
      cases wl with
      | none => exact ⟨-22, rfl⟩
      | some w =>
        have hb : (out_null || (out_len == 0)) = true := by
          rcases hcond with h | h | h
          · simp [h]
          · simp [h]
          · exact Option.noConfusion h
        exact ⟨-22, by simp [osmo_environment_filter, hb]⟩
  · intro out_len wl h0
    have hb : (false || (out_len == 0)) = false := by
      simp only [Bool.false_or, beq_eq_false_iff_ne, ne_eq]
      exact h0
    simp [osmo_environment_filter, hb]

/-- Witness for C3: a NULL output buffer is an error even with a NULL
input; a valid call with a NULL input environment succeeds with the
single-sentinel output and count 1. -/
theorem env_filter_error_iff_witness :
    (∃ e, osmo_environment_filter true 4 none (some ["PATH"]) = Except.error e)
    ∧ ¬ (∃ e, osmo_environment_filter false 4 none (some ["PATH"]) = Except.error e)
    ∧ osmo_environment_filter false 4 none (some ["PATH"]) = .ok ([none], 1) := by
  obtain ⟨hiff, hnull⟩ := env_filter_error_iff
  refine ⟨(hiff true 4 none (some ["PATH"])).mpr (Or.inl rfl), ?_, hnull 4 ["PATH"] (by decide)⟩
  intro hex
  rcases (hiff false 4 none (some ["PATH"])).mp hex with h | h | h
  · exact Bool.noConfusion h
  · exact absurd h (by decide)
  · exact Option.noConfusion h

/-! ### Claim C4 (amended) with counterexample to the original -/

/-- Counterexample to C4 as stated: a valid call (capacity 1, so not an
invalid argument) on an input whose single entry is whitelisted yields an
output holding only the sentinel — the whitelisted entry does not appear
in the output, because the capacity is exhausted.  So "every remaining
entry whose key is in the whitelist appears in the output" fails without
a capacity proviso. -/
theorem env_filter_whitelisted_entry_dropped :
    entryMatches ["PATH"] ⟨0, "PATH=/bin"⟩ = true
    ∧ osmo_environment_filter false 1 (some [⟨0, "PATH=/bin"⟩]) (some ["PATH"]) =
        .ok ([none], 1)
    ∧ some (⟨0, "PATH=/bin"⟩ : CStr) ∉ ([none] : List (Option CStr)) := by
  refine ⟨by decide, rfl, by decide⟩

/-- C4 as amended: for every valid call, an input entry with no `=` is
skipped without error, an entry whose key length reaches the 256-byte
staging bound is skipped without error, and the output consists exactly
of the first `out_len - 1` entries whose key is in the whitelist — each
appearing as the original input pointer (the entries written are
literally input-list elements, in input order), followed by the
sentinel. -/
theorem env_filter_entry_selection (out_len : Nat) (in_list : List CStr)
    (wl : List String) (h1 : 1 ≤ out_len) :
    ∃ written : List CStr,
      osmo_environment_filter false out_len (some in_list) (some wl) =
        .ok (written.map some ++ [none], (written.length : Int) + 1)
      ∧ written = (in_list.filter (entryMatches wl)).take (out_len - 1)
      ∧ written.Sublist in_list
      ∧ (∀ e ∈ written, entryMatches wl e = true)
      ∧ (∀ e ∈ in_list, entryKey e = none → e ∉ written) := by
  have hb : (false || (out_len == 0)) = false := by
    simp only [Bool.false_or, beq_eq_false_iff_ne, ne_eq]
    omega
  have hloop := filterLoop_eq_take wl out_len h1 in_list 0 (by omega)
  refine ⟨(in_list.filter (entryMatches wl)).take (out_len - 1), ?_, rfl, ?_, ?_, ?_⟩
  · simp only [osmo_environment_filter, hb, Bool.false_eq_true, if_false, hloop,
      Nat.sub_zero]
  · exact ((in_list.filter (entryMatches wl)).take_sublist (out_len - 1)).trans
      (in_list.filter_sublist)
  · intro e he
    exact (List.mem_filter.mp (List.mem_of_mem_take he)).2
  · intro e _ hkey hmem
    have := (List.mem_filter.mp (List.mem_of_mem_take hmem)).2
    simp [entryMatches, hkey] at this

set_option maxRecDepth 8192 in
/-- Witness for the amended C4: capacity 4, one whitelisted entry, one
malformed entry with no `=`, and one entry whose 256-character key is in
the whitelist (but is skipped by the staging bound): only the whitelisted
short-key entry is written, then the sentinel; the returned count is
2. -/
theorem env_filter_entry_selection_witness :
    osmo_environment_filter false 4
        (some [⟨0, "PATH=/bin"⟩, ⟨1, "MALFORMED"⟩,
          ⟨2, String.mk (List.replicate 256 'K') ++ "=v"⟩])
        (some ["PATH", String.mk (List.replicate 256 'K')]) =
      .ok ([some ⟨0, "PATH=/bin"⟩, none], 2) := by
  obtain ⟨written, hmain, hval, -, -, -⟩ :=
    env_filter_entry_selection 4
      [⟨0, "PATH=/bin"⟩, ⟨1, "MALFORMED"⟩,
        ⟨2, String.mk (List.replicate 256 'K') ++ "=v"⟩]
      ["PATH", String.mk (List.replicate 256 'K')] (by decide)
  subst hval
  rw [hmain]
  rfl

/-! ### Claims C5 and C10 -/

/-- C5: on a valid call whose output array already holds `existing`
entries before its sentinel, appending a (non-null) list writes the new
entries by reference directly after the existing ones — existing slots
are untouched, so their pointers and order are preserved — truncated to
the remaining capacity, and re-terminates the array with the sentinel; a
null second list leaves the array's entries untouched and still
terminated (writing the sentinel only when the array was empty). -/
theorem env_append_spec (out_len : Nat) (existing in_list : List CStr)
    (h1 : 1 ≤ out_len) (hfit : existing.length < out_len) :
    osmo_environment_append false out_len existing (some in_list) =
      some (.ok (existing.map some
          ++ (in_list.take (out_len - 1 - existing.length)).map some ++ [none],
        ((existing.length + (in_list.take (out_len - 1 - existing.length)).length : Nat) :
          Int) + 1))
    ∧ (existing ≠ [] → osmo_environment_append false out_len existing none =
        some (.ok (existing.map some ++ [none], (existing.length : Int))))
    ∧ osmo_environment_append false out_len [] none = some (.ok ([none], 1)) := by
  have hb : (false || (out_len == 0)) = false := by
    simp only [Bool.false_or, beq_eq_false_iff_ne, ne_eq]
    omega
  have hcond : existing.length + (in_list.take (out_len - 1 - existing.length)).length
      < out_len := by
    have hle : (in_list.take (out_len - 1 - existing.length)).length
        ≤ out_len - 1 - existing.length := List.length_take_le _ _
    omega
  refine ⟨?_, ?_, ?_⟩
  · simp only [osmo_environment_append, hb, Bool.false_eq_true, if_false]
    rw [if_pos hcond]
  · intro hne
    have hlen0 : ¬ existing.length = 0 := by
      simpa using hne
    simp [osmo_environment_append, hb, hlen0]
  · simp [osmo_environment_append, hb]

/-- Witness for C5: capacity 10, two existing entries, two appended
entries: the result is the two existing pointers, then the two appended
pointers, then the sentinel, with returned count 5; and with a null
second list the two existing entries stay as they are, still
terminated. -/
theorem env_append_spec_witness :
    osmo_environment_append false 10 [⟨0, "A=1"⟩, ⟨1, "B=2"⟩]
        (some [⟨2, "C=3"⟩, ⟨3, "D=4"⟩]) =
      some (.ok ([some ⟨0, "A=1"⟩, some ⟨1, "B=2"⟩, some ⟨2, "C=3"⟩,
        some ⟨3, "D=4"⟩, none], 5))
    ∧ osmo_environment_append false 10 [⟨0, "A=1"⟩, ⟨1, "B=2"⟩] none =
      some (.ok ([some ⟨0, "A=1"⟩, some ⟨1, "B=2"⟩, none], 2)) := by
  obtain ⟨happ, hnull, -⟩ :=
    env_append_spec 10 [⟨0, "A=1"⟩, ⟨1, "B=2"⟩] [⟨2, "C=3"⟩, ⟨3, "D=4"⟩]
      (by decide) (by decide)
  exact ⟨by rw [happ]; rfl, by rw [hnull (by decide)]; rfl⟩

/-- C10: with a null second list and at least one existing entry,
`osmo_environment_append` returns the number of entries before the
sentinel — a count that excludes the sentinel slot, one less than the
number of occupied slots — whereas with an empty existing array it writes
the sentinel and returns 1 (a count that includes the sentinel slot, as
do `osmo_environment_filter` and the non-null append cases). -/
theorem env_append_null_in_count (out_len : Nat) (existing : List CStr)
    (h1 : 1 ≤ out_len) (hne : existing ≠ []) :
    osmo_environment_append false out_len existing none =
      some (.ok (existing.map some ++ [none], (existing.length : Int)))
    ∧ (existing.length : Int) = ((existing.map some ++ [none]).length : Int) - 1
    ∧ osmo_environment_append false out_len [] none = some (.ok ([none], 1)) := by
  have hb : (false || (out_len == 0)) = false := by
    simp only [Bool.false_or, beq_eq_false_iff_ne, ne_eq]
    omega
  have hlen0 : ¬ existing.length = 0 := by
    simpa using hne
  refine ⟨by simp [osmo_environment_append, hb, hlen0], ?_,
    by simp [osmo_environment_append, hb]⟩
  simp only [List.length_append, List.length_map, List.length_cons, List.length_nil]
  push_cast
  omega

/-- Witness for C10: one existing entry and a null second list: the array
keeps its entry plus sentinel (two occupied slots) but the returned count
is 1, excluding the sentinel; on an empty array the sentinel is written
and the count 1 includes it. -/
theorem env_append_null_in_count_witness :
    osmo_environment_append false 4 [⟨0, "A=1"⟩] none =
      some (.ok ([some ⟨0, "A=1"⟩, none], 1))
    ∧ osmo_environment_append false 4 [] none = some (.ok ([none], 1)) := by
  obtain ⟨hmain, -, hempty⟩ :=
    env_append_null_in_count 4 [⟨0, "A=1"⟩] (by decide) (by decide)
  exact ⟨by rw [hmain]; rfl, hempty⟩

/-! ## File-descriptor sweep (`osmo_close_all_fds_above`) -/

/-- The OS-state a call to `osmo_close_all_fds_above` interacts with:
the set of currently open descriptors (as a list of fd numbers), whether
`opendir("/proc/self/fd")` succeeds, and which descriptors `close` fails
on.  A failing `close` is modelled as leaving the descriptor open (the
pessimistic reading); the code only logs it and continues either way. -/
structure FdState where
  openFds : List Nat
  canOpenDir : Bool
  closeFails : Nat → Bool

/-- The descriptor `opendir` allocates for the directory stream: some
descriptor not currently open (modelled as one above the maximum open
fd).  The loop compares each entry against it via `dirfd(dir)` and skips
it. -/
def dirFdOf (openFds : List Nat) : Nat :=
  openFds.foldr max 0 + 1

/-- `close(fd)`: removes `fd` from the open set when it is open and the
close does not fail; otherwise (EBADF or a failing close, both merely
logged by the caller) the open set is unchanged. -/
def closeFd (fails : Nat → Bool) (fds : List Nat) (fd : Nat) : List Nat :=
  if fds.contains fd && !(fails fd) then fds.filter (fun x => x != fd) else fds

/-- One iteration of the `readdir` loop of `osmo_close_all_fds_above`:
`fd = atoi(ent->d_name)`; entries with `fd <= last_fd_to_keep` are
skipped, the directory stream's own descriptor is skipped, everything
else is `close`d. -/
def sweepStep (last : Int) (dirFd : Nat) (fails : Nat → Bool)
    (fds : List Nat) (fd : Nat) : List Nat :=
  if (fd : Int) ≤ last then fds
  else if fd = dirFd then fds
  else closeFd fails fds fd

/-- `osmo_close_all_fds_above last_fd_to_keep`: if `/proc/self/fd` cannot
be opened, return `-ENODEV = -19` with nothing closed; otherwise iterate
the directory listing — the entries `.` and `..` (whose `atoi` is 0) plus
one name per open descriptor, including the directory stream's own
descriptor — applying `sweepStep` to each, then `closedir` (which closes
the stream's descriptor) and return 0.  Result: the return code and the
set of descriptors still open afterwards. -/
def osmo_close_all_fds_above (last : Int) (st : FdState) : Int × List Nat :=
  if st.canOpenDir then
    let dirFd := dirFdOf st.openFds
    let listing := 0 :: 0 :: (st.openFds ++ [dirFd])
    let opened := st.openFds ++ [dirFd]
    let after := listing.foldl (sweepStep last dirFd st.closeFails) opened
    (0, after.filter (fun x => x != dirFd))
  else
    (-19, st.openFds)

/-- Membership after one sweep step: `fd` stays open unless this step's
directory entry names `fd` itself and `fd` is above the threshold, is not
the directory stream's descriptor, and its close succeeds. -/
theorem sweepStep_mem (last : Int) (dirFd : Nat) (fails : Nat → Bool)
    (fds : List Nat) (x fd : Nat) :
    fd ∈ sweepStep last dirFd fails fds x ↔
      (fd ∈ fds ∧ ¬(fd = x ∧ last < (x : Int) ∧ x ≠ dirFd ∧ fails x = false)) := by
  unfold sweepStep closeFd
  split_ifs with h1 h2 h3
  · have hnlt : ¬ last < (x : Int) := not_lt.mpr h1
    tauto
  · tauto
  · obtain ⟨hmem, hfail⟩ := Bool.and_eq_true_iff.mp h3
    have hfx : fails x = false := by
      simpa using hfail
    simp only [List.mem_filter, bne_iff_ne, ne_eq]
    push_neg at h1
    constructor
    · rintro ⟨hin, hne⟩
      exact ⟨hin, fun hcon => hne hcon.1⟩
    · rintro ⟨hin, hnot⟩
      refine ⟨hin, fun heq => hnot ⟨heq, h1, h2, hfx⟩⟩
  · constructor
    · intro hin
      refine ⟨hin, ?_⟩
      rintro ⟨heq, -, -, hfx⟩
      subst heq
      exact h3 (by simp [List.contains, List.elem_iff, hfx, hin])
    · rintro ⟨hin, -⟩
      exact hin

/-- Membership after the whole sweep: `fd` stays open iff it was open and
no listed entry triggers a successful close of it. -/
theorem sweep_mem (last : Int) (dirFd : Nat) (fails : Nat → Bool) :
    ∀ (listing fds : List Nat) (fd : Nat),
      fd ∈ listing.foldl (sweepStep last dirFd fails) fds ↔
        (fd ∈ fds ∧
          ¬(fd ∈ listing ∧ last < (fd : Int) ∧ fd ≠ dirFd ∧ fails fd = false)) := by
  intro listing
  induction listing with
  | nil => intro fds fd; simp
  | cons x rest ih =>
    intro fds fd
    rw [List.foldl_cons, ih, sweepStep_mem]
    by_cases heq : fd = x
    · subst heq
      constructor
      · rintro ⟨⟨hin, hnot1⟩, hnot2⟩
        refine ⟨hin, ?_⟩
        rintro ⟨hmem, hsc⟩
        rcases List.mem_cons.mp hmem with _ | hmem2
        · exact hnot1 ⟨rfl, hsc⟩
        · exact hnot2 ⟨hmem2, hsc⟩
      · rintro ⟨hin, hnot⟩
        refine ⟨⟨hin, ?_⟩, ?_⟩
        · rintro ⟨-, hsc⟩
          exact hnot ⟨List.mem_cons_self _ _, hsc⟩
        · rintro ⟨hmem2, hsc⟩
          exact hnot ⟨List.mem_cons_of_mem _ hmem2, hsc⟩
    · constructor
      · rintro ⟨⟨hin, -⟩, hnot2⟩
        refine ⟨hin, ?_⟩
        rintro ⟨hmem, hsc⟩
        rcases List.mem_cons.mp hmem with heq2 | hmem2
        · exact heq heq2
        · exact hnot2 ⟨hmem2, hsc⟩
      · rintro ⟨hin, hnot⟩
        refine ⟨⟨hin, ?_⟩, ?_⟩
        · rintro ⟨heq2, -⟩
          exact heq heq2
        · rintro ⟨hmem2, hsc⟩
          exact hnot ⟨List.mem_cons_of_mem _ hmem2, hsc⟩

/-- Every member of a list of naturals is bounded by its `foldr max 0`,
so `dirFdOf` exceeds every open descriptor. -/
theorem mem_le_foldr_max : ∀ (l : List Nat) (fd : Nat), fd ∈ l → fd ≤ l.foldr max 0
  | [], _, h => absurd h (List.not_mem_nil _)
  | x :: rest, fd, h => by
    rcases List.mem_cons.mp h with heq | hmem
    · subst heq
      exact le_max_left _ _
    · exact le_trans (mem_le_foldr_max rest fd hmem) (le_max_right _ _)

/-! ### Claim C7 -/

/-- C7: when the descriptor-enumeration directory cannot be opened,
`osmo_close_all_fds_above` returns the hard error `-ENODEV` with nothing
closed; when it can be opened the call returns 0 — even if individual
closes fail — and afterwards every descriptor at or below the threshold
that was open is still open, every open descriptor strictly above the
threshold whose close does not fail is closed, and no descriptor that was
not open before is open (in particular the directory stream's descriptor
is closed again). -/
theorem close_all_fds_above_spec (last : Int) (st : FdState) :
    (st.canOpenDir = false → osmo_close_all_fds_above last st = (-19, st.openFds))
    ∧ (st.canOpenDir = true →
        (osmo_close_all_fds_above last st).1 = 0
        ∧ (∀ fd ∈ st.openFds, (fd : Int) ≤ last →
            fd ∈ (osmo_close_all_fds_above last st).2)
        ∧ (∀ fd ∈ st.openFds, last < (fd : Int) → st.closeFails fd = false →
            fd ∉ (osmo_close_all_fds_above last st).2)
        ∧ (∀ fd ∈ (osmo_close_all_fds_above last st).2, fd ∈ st.openFds)) := by
  constructor
  · intro hdir
    simp [osmo_close_all_fds_above, hdir]
  · intro hdir
    have hdirFd : ∀ fd ∈ st.openFds, fd < dirFdOf st.openFds := by
      intro fd hfd
      have := mem_le_foldr_max st.openFds fd hfd
      unfold dirFdOf
      omega
    have hres : osmo_close_all_fds_above last st =
        (0, (((0 : Nat) :: 0 :: (st.openFds ++ [dirFdOf st.openFds])).foldl
            (sweepStep last (dirFdOf st.openFds) st.closeFails)
            (st.openFds ++ [dirFdOf st.openFds])).filter
          (fun x => x != dirFdOf st.openFds)) := by
      simp [osmo_close_all_fds_above, hdir]
    rw [hres]
    refine ⟨rfl, ?_, ?_, ?_⟩
    · intro fd hfd hle
      have hne : fd ≠ dirFdOf st.openFds := Nat.ne_of_lt (hdirFd fd hfd)
      simp only [List.mem_filter, bne_iff_ne, ne_eq, sweep_mem]
      refine ⟨⟨List.mem_append_left _ hfd, ?_⟩, hne⟩
      rintro ⟨-, hlt, -, -⟩
      exact absurd hle (not_le.mpr hlt)
    · intro fd hfd hlt hfail
      have hne : fd ≠ dirFdOf st.openFds := Nat.ne_of_lt (hdirFd fd hfd)
      simp only [List.mem_filter, bne_iff_ne, ne_eq, sweep_mem]
      rintro ⟨⟨-, hnot⟩, -⟩
      refine hnot ⟨?_, hlt, hne, hfail⟩
      exact List.mem_cons_of_mem _ (List.mem_cons_of_mem _ (List.mem_append_left _ hfd))
    · intro fd hfd
      simp only [List.mem_filter, bne_iff_ne, ne_eq, sweep_mem] at hfd
      obtain ⟨⟨hin, -⟩, hne⟩ := hfd
      rcases List.mem_append.mp hin with h | h
      · exact h
      · exact absurd (List.mem_singleton.mp h) hne

/-- Witness for C7, the spec's own example: descriptors 0, 1, 2, 5, 7
open, no close failures, threshold 2: the call succeeds with 0, leaves 0,
1 and 2 open and closes 5 and 7. -/
theorem close_all_fds_above_spec_witness :
    (osmo_close_all_fds_above 2
      ⟨[0, 1, 2, 5, 7], true, fun _ => false⟩).1 = 0
    ∧ 2 ∈ (osmo_close_all_fds_above 2
      ⟨[0, 1, 2, 5, 7], true, fun _ => false⟩).2
    ∧ 5 ∉ (osmo_close_all_fds_above 2
      ⟨[0, 1, 2, 5, 7], true, fun _ => false⟩).2
    ∧ 7 ∉ (osmo_close_all_fds_above 2
      ⟨[0, 1, 2, 5, 7], true, fun _ => false⟩).2 := by
  obtain ⟨-, hopen⟩ := close_all_fds_above_spec 2 ⟨[0, 1, 2, 5, 7], true, fun _ => false⟩
  obtain ⟨hrc, hkeep, hclose, -⟩ := hopen rfl
  exact ⟨hrc, hkeep 2 (by decide) (by decide), hclose 5 (by decide) (by decide) rfl,
    hclose 7 (by decide) (by decide) rfl⟩

/-! ## Fork/exec launch (`osmo_system_nowait`) -/

/-- The observable actions of `osmo_system_nowait` after the fork:
the child-side steps in the order the child performs them, plus a
`wait_child` action standing for `wait`/`waitpid` — which the function
never performs on either side. -/
inductive ChildStep where
  | close_fds
  | env_filter
  | env_append
  | exec_shell
  | wait_child
deriving DecidableEq, Repr

/-- `osmo_system_nowait command addl_env`, parametrised by the value the
`fork()` call returns in this process.  In the child (`fork_rc == 0`) the
code closes all descriptors above 2, filters `environ` through the
whitelist into `new_env`, appends `addl_env`, and `execle`s
`/bin/sh -c command`; the recorded trace lists these steps in program
order, and the returned `-EIO = -5` is reached only if the exec itself
fails (on success the call never returns in the child).  In the parent
(`fork_rc != 0`, the child's pid or a negative fork error) the function
immediately returns `fork_rc`, performing no steps at all. -/
def osmo_system_nowait (fork_rc : Int) : Int × List ChildStep :=
  if fork_rc = 0 then
    (-5, [ChildStep.close_fds, ChildStep.env_filter, ChildStep.env_append,
      ChildStep.exec_shell])
  else
    (fork_rc, [])

/-! ### Claims C8 and C9 -/

/-- C8: in the parent, `osmo_system_nowait` returns immediately after the
fork — with the child's positive pid on success and with the negative
fork error on failure, in both cases performing no child-side work and
never waiting for the child (no side of the call ever performs a wait
action). -/
theorem system_nowait_parent (fork_rc : Int) :
    (0 < fork_rc → osmo_system_nowait fork_rc = (fork_rc, []))
    ∧ (fork_rc < 0 → osmo_system_nowait fork_rc = (fork_rc, []))
    ∧ ChildStep.wait_child ∉ (osmo_system_nowait fork_rc).2 := by
  by_cases h : fork_rc = 0
  · subst h
    exact ⟨fun hlt => absurd hlt (by decide), fun hlt => absurd hlt (by decide),
      by decide⟩
  · refine ⟨fun _ => ?_, fun _ => ?_, ?_⟩ <;> simp [osmo_system_nowait, h]

/-- Witness for C8: a successful fork returning pid 42 makes the parent
return 42 with no child-side work; a failed fork returning -1 makes it
return -1 with no child-side work. -/
theorem system_nowait_parent_witness :
    osmo_system_nowait 42 = (42, []) ∧ osmo_system_nowait (-1) = (-1, []) := by
  obtain ⟨hpos, -, -⟩ := system_nowait_parent 42
  obtain ⟨-, hneg, -⟩ := system_nowait_parent (-1)
  exact ⟨hpos (by decide), hneg (by decide)⟩

/-- Counterexample to C9 as stated: in the child the file-descriptor
sweep happens strictly before the environment filtering — the child trace
is not the spec's order (filter, append, fd hygiene, exec). -/
theorem child_closes_fds_before_env_filter :
    List.indexOf ChildStep.close_fds (osmo_system_nowait 0).2 <
      List.indexOf ChildStep.env_filter (osmo_system_nowait 0).2
    ∧ (osmo_system_nowait 0).2 ≠
      [ChildStep.env_filter, ChildStep.env_append, ChildStep.close_fds,
        ChildStep.exec_shell] := by
  decide

/-- C9 as amended: in the child path the composed steps run in the order
file-descriptor hygiene first, then environment filtering, then
environment append/merge, and only then the exec of the shell — all three
preparation steps do precede the exec, but hygiene comes first, not
third. -/
theorem child_step_order :
    (osmo_system_nowait 0).2 =
      [ChildStep.close_fds, ChildStep.env_filter, ChildStep.env_append,
        ChildStep.exec_shell] := rfl

/-! ### Claims C1 and C6 -/

/-- C1: for every registry state (hence after every sequence of
register/unregister operations, since those only produce registry
states), `osmo_signal_dispatch subsys signal signal_data` invokes exactly
the callbacks of the entries registered for `subsys`, once each, in
registration order, passing `(subsys, signal, handler.data, signal_data)`
to each; entries of other subsystems are not invoked (they contribute no
invocation), and a freshly registered matching handler is appended at the
tail, so its invocation comes last. -/
theorem dispatch_invokes_exactly_matching (subsys signal signal_data : Nat)
    (reg : Registry) :
    osmo_signal_dispatch subsys signal signal_data reg =
      (reg.filter (fun h => h.subsys == subsys)).map
        (fun h => ⟨h.cbfn, subsys, signal, h.data, signal_data⟩)
    ∧ (∀ cbfn data : Nat,
        osmo_signal_dispatch subsys signal signal_data
            (osmo_signal_register_handler subsys cbfn data reg) =
          osmo_signal_dispatch subsys signal signal_data reg
            ++ [⟨cbfn, subsys, signal, data, signal_data⟩])
    ∧ (∀ subsys2 cbfn data : Nat, subsys2 ≠ subsys →
        osmo_signal_dispatch subsys signal signal_data
            (osmo_signal_register_handler subsys2 cbfn data reg) =
          osmo_signal_dispatch subsys signal signal_data reg) := by
  have hfilter : ∀ r : Registry,
      osmo_signal_dispatch subsys signal signal_data r =
        (r.filter (fun h => h.subsys == subsys)).map
          (fun h => ⟨h.cbfn, subsys, signal, h.data, signal_data⟩) := by
    intro r
    induction r with
    | nil => rfl
    | cons h rest ih =>
      by_cases hs : h.subsys = subsys
      · simp [osmo_signal_dispatch, hs, ih]
      · simp [osmo_signal_dispatch, hs, ih]
  refine ⟨hfilter reg, ?_, ?_⟩
  · intro cbfn data
    simp [osmo_signal_register_handler, hfilter]
  · intro subsys2 cbfn data hne
    simp [osmo_signal_register_handler, hfilter, hne]

/-- Witness for C1 at a concrete registry: subsystem 1 has two handlers
(registered in order), subsystem 2 has one; dispatching to subsystem 1
invokes exactly the two subsystem-1 callbacks in registration order, a
new subsystem-1 registration is invoked last, and a new subsystem-2
registration adds no invocation. -/
theorem dispatch_invokes_exactly_matching_witness :
    osmo_signal_dispatch 1 9 5 [⟨1, 10, 100⟩, ⟨2, 20, 200⟩, ⟨1, 30, 300⟩] =
      [⟨10, 1, 9, 100, 5⟩, ⟨30, 1, 9, 300, 5⟩]
    ∧ osmo_signal_dispatch 1 9 5
        (osmo_signal_register_handler 1 40 400 [⟨1, 10, 100⟩, ⟨2, 20, 200⟩, ⟨1, 30, 300⟩]) =
      [⟨10, 1, 9, 100, 5⟩, ⟨30, 1, 9, 300, 5⟩, ⟨40, 1, 9, 400, 5⟩]
    ∧ osmo_signal_dispatch 1 9 5
        (osmo_signal_register_handler 2 40 400 [⟨1, 10, 100⟩, ⟨2, 20, 200⟩, ⟨1, 30, 300⟩]) =
      [⟨10, 1, 9, 100, 5⟩, ⟨30, 1, 9, 300, 5⟩] := by
  obtain ⟨h1, h2, h3⟩ :=
    dispatch_invokes_exactly_matching 1 9 5 [⟨1, 10, 100⟩, ⟨2, 20, 200⟩, ⟨1, 30, 300⟩]
  exact ⟨by rw [h1]; decide, by rw [h2 40 400]; rw [h1]; decide,
    by rw [h3 2 40 400 (by decide)]; rw [h1]; decide⟩

/-- C6: `osmo_signal_unregister_handler` removes exactly the first entry
whose `(subsystem, cbfn, data)` triple matches all three fields — stated
as: on a registry `pre ++ h :: post` where nothing in `pre` matches and
`h` does, the result is `pre ++ post` (so later duplicates in `post` are
untouched) — and is a no-op when no entry of the registry matches. -/
theorem unregister_removes_first_match (subsys cbfn data : Nat) :
    (∀ reg : Registry, (∀ h ∈ reg, handlerMatches subsys cbfn data h = false) →
      osmo_signal_unregister_handler subsys cbfn data reg = reg)
    ∧ (∀ (pre post : Registry) (h : SignalHandler),
        (∀ h2 ∈ pre, handlerMatches subsys cbfn data h2 = false) →
        handlerMatches subsys cbfn data h = true →
        osmo_signal_unregister_handler subsys cbfn data (pre ++ h :: post) =
          pre ++ post) := by
  constructor
  · intro reg hnone
    induction reg with
    | nil => rfl
    | cons h rest ih =>
      have hh := hnone h (by simp)
      simp only [osmo_signal_unregister_handler, hh, Bool.false_eq_true, if_false,
        List.cons.injEq, true_and]
      exact ih fun h2 hmem => hnone h2 (by simp [hmem])
  · intro pre post h hpre hh
    induction pre with
    | nil => simp [osmo_signal_unregister_handler, hh]
    | cons p rest ih =>
      have hp := hpre p (by simp)
      simp only [List.cons_append, osmo_signal_unregister_handler, hp,
        Bool.false_eq_true, if_false, List.cons.injEq, true_and]
      exact ih fun h2 hmem => hpre h2 (by simp [hmem])

/-- Witness for C6: unregistering `(1, 10, 100)` from a registry holding
a non-matching entry, a first match, and a duplicate match removes only
the first match; unregistering a never-registered triple is a no-op. -/
theorem unregister_removes_first_match_witness :
    osmo_signal_unregister_handler 1 10 100 [⟨2, 20, 200⟩, ⟨1, 10, 100⟩, ⟨1, 10, 100⟩] =
      [⟨2, 20, 200⟩, ⟨1, 10, 100⟩]
    ∧ osmo_signal_unregister_handler 7 8 9 [⟨2, 20, 200⟩, ⟨1, 10, 100⟩] =
      [⟨2, 20, 200⟩, ⟨1, 10, 100⟩] := by
  obtain ⟨hnoop, hfirst⟩ := unregister_removes_first_match 1 10 100
  obtain ⟨hnoop7, _⟩ := unregister_removes_first_match 7 8 9
  refine ⟨?_, hnoop7 _ (by decide)⟩
  have := hfirst [⟨2, 20, 200⟩] [⟨1, 10, 100⟩] ⟨1, 10, 100⟩ (by decide) (by decide)
  simpa using this

end Libosmocore
